import Mathlib

/-!
Verification of the Particle-Life simulation core.

Shallow embedding of the repository's simulation code:
  * `src/simulation/mutation.js` — interaction-matrix drift, force anomalies
    (`createMutation`, its inner `step` and `applyAnomalies`);
  * `src/simulation/physics.js` and the second physics variant — spatial hash
    grid (`gridInit` / `gridBuild`), the per-frame `step` with neighbor forces,
    cursor magnet, stroke attractors, force cap, soft boundary, corner escape
    and the hard clamp;
  * the two genesis size-tier draws (`weightedTier` and the uniform
    `Math.floor(Math.random()*5)` draw of `assignSpecies`).

Modelling conventions:
  * JS numbers are embedded as `ℚ`.  `Math.random()` is modelled by an
    explicit stream `rng : ℕ → ℚ` together with a cursor threaded through the
    state; a faithful run has every `rng n` in `[0,1)`.
  * `Math.sqrt` / `Math.hypot` are not rational, so functions that use them
    take a square-root oracle `sq : ℚ → ℚ` as a parameter.  Theorems either
    hold for every oracle, or take the (satisfiable) hypotheses they need,
    and concrete runs instantiate the oracle at perfect squares where it is
    exact.
  * The simplex noise `simplex2` is driven by the irrational constants
    `F2 = (√3−1)/2`, `G2 = (3−√3)/6`; the mutation step only consumes it as a
    black-box sample per matrix cell, so the embedding takes the sampled
    noise as a parameter `noise : ℕ → ℕ → ℚ → ℚ` standing for
    `simplex2 (a*1.7 + t*0.1, b*1.7 + t*0.13)` (the source documents its
    range as [-1, 1]).
-/

/-- An S×S interaction (or drift-target) matrix, totalised as a function;
entries outside the S×S square are junk and never read by the code. -/
def Mat : Type := ℕ → ℕ → ℚ

/-- Pointwise update of one matrix cell (models `M[a][b] = v`). -/
def mupd (f : Mat) (a b : ℕ) (v : ℚ) : Mat :=
  fun a2 b2 => if a2 = a ∧ b2 = b then v else f a2 b2

/-- A transient force anomaly, from `mutation.js` (`{x, y, strength, life,
maxLife}`). -/
structure Anomaly where
  x : ℚ
  y : ℚ
  strength : ℚ
  life : ℚ
  maxLife : ℚ
deriving DecidableEq

/-- Mutation-engine state: the closure variables of `createMutation`
(`targets`, `anomalies`, `anomalyTimer`, `time`, `intensity`,
`anomaliesEnabled`), plus the species count `S` captured at construction and
the cursor `k` into the random stream. -/
structure MutState where
  targets : Mat
  anomalies : List Anomaly
  anomalyTimer : ℚ
  time : ℚ
  intensity : ℚ
  anomaliesEnabled : Bool
  k : ℕ
  S : ℕ

/-- The constructor `createMutation(speciesCount)` (mutation.js 91–112): targets filled with
`Math.random()*2-1` in row-major order, no anomalies, timers at zero,
intensity 0.3, anomalies enabled. -/
def createMutation (S : ℕ) (rng : ℕ → ℚ) : MutState :=
  ⟨fun a b => if a < S ∧ b < S then 2 * rng (a * S + b) - 1 else 0,
   [], 0, 0, 3/10, true, S * S, S⟩

/-- Intermediate state of the drift loop: the live interaction matrix, the
drift-target matrix and the random-stream cursor. -/
structure DriftState where
  M : Mat
  T : Mat
  k : ℕ

/-- One iteration of the drift double loop (mutation.js 121–135): simplex
noise modulates the drift speed, the cell lerps toward its target, and a
target closer than 0.02 is re-drawn as `Math.random()*2-1`. -/
def driftCell (noise : ℕ → ℕ → ℚ → ℚ) (rng : ℕ → ℚ) (intensity time : ℚ)
    (s : DriftState) (c : ℕ × ℕ) : DriftState :=
  let noiseVal := noise c.1 c.2 time
  let driftSpeed := (1/1000 * intensity) * (1 + noiseVal * (8/10))
  let m2 := s.M c.1 c.2 + (s.T c.1 c.2 - s.M c.1 c.2) * driftSpeed
  let M2 := mupd s.M c.1 c.2 m2
  if |m2 - s.T c.1 c.2| < 1/50 then
    ⟨M2, mupd s.T c.1 c.2 (2 * rng s.k - 1), s.k + 1⟩
  else
    ⟨M2, s.T, s.k⟩

/-- Row-major list of matrix cells, the iteration order of the JS double
loop `for a ... for b ...`. -/
def cellList (S : ℕ) : List (ℕ × ℕ) :=
  (List.range S).flatMap fun a => (List.range S).map fun b => (a, b)

/-- The whole drift double loop of `step` (mutation.js 121–135). -/
def driftPhase (noise : ℕ → ℕ → ℚ → ℚ) (rng : ℕ → ℚ) (intensity time : ℚ)
    (M T : Mat) (k S : ℕ) : DriftState :=
  (cellList S).foldl (driftCell noise rng intensity time) ⟨M, T, k⟩

/-- The `step(M, dt, W, H)` function of the mutation engine (mutation.js 114–162):
advance time, drift every matrix cell, then (when anomalies are enabled and
intensity is positive) accumulate the anomaly timer, spawn one anomaly when
it crosses `4.0/(0.5+intensity)`, and age/remove anomalies.  Returns the
updated matrix together with the new engine state. -/
def mutationStep (noise : ℕ → ℕ → ℚ → ℚ) (rng : ℕ → ℚ) (M : Mat)
    (dt W H : ℚ) (st : MutState) : Mat × MutState :=
  let time2 := st.time + dt
  let d := driftPhase noise rng st.intensity time2 M st.targets st.k st.S
  if st.anomaliesEnabled ∧ 0 < st.intensity then
    let timer2 := st.anomalyTimer + dt
    let spawnInterval := 4 / (1/2 + st.intensity)
    let spawned :=
      if timer2 > spawnInterval then
        ((0 : ℚ),
         st.anomalies ++
           [⟨rng d.k * W, rng (d.k + 1) * H,
             (rng (d.k + 2) - 1/2) * 2 * st.intensity,
             2 + rng (d.k + 3) * (3/2),
             2 + rng (d.k + 4) * (3/2)⟩],
         d.k + 5)
      else (timer2, st.anomalies, d.k)
    let aged := (spawned.2.1.map fun a => { a with life := a.life - dt }).filter
      fun a => 0 < a.life
    (d.M, ⟨d.T, aged, spawned.1, time2, st.intensity, st.anomaliesEnabled,
           spawned.2.2, st.S⟩)
  else
    (d.M, ⟨d.T, st.anomalies, st.anomalyTimer, time2, st.intensity,
           st.anomaliesEnabled, d.k, st.S⟩)

/-- Iterate `n` successive mutation steps with a fixed `dt` (the per-frame driver
loop calling `mutation.step(M, dt, W, H)`). -/
def mutationStepN (noise : ℕ → ℕ → ℚ → ℚ) (rng : ℕ → ℚ) (dt W H : ℚ) :
    ℕ → Mat × MutState → Mat × MutState
  | 0, p => p
  | n + 1, p => mutationStepN noise rng dt W H n
      (mutationStep noise rng p.1 dt W H p.2)

/-- Lifetime envelope of an anomaly (mutation.js 177–180):
`lifeRatio < 0.2 ? lifeRatio/0.2 : (1.0 - lifeRatio)/0.8`. -/
def envelope (lr : ℚ) : ℚ :=
  if lr < 1/5 then lr / (1/5) else (1 - lr) / (4/5)

/-- Force one anomaly exerts at a query point (body of the loop in
`applyAnomalies`, mutation.js 169–185).  `sq` stands for `Math.sqrt`, so
`dist = sq (dx²+dy²)`; outside the [1, 200] distance band the contribution
is zero, inside it is `strength * envelope / (dist*0.05)` along the unit
vector toward the anomaly. -/
def anomalyContrib (sq : ℚ → ℚ) (a : Anomaly) (px py : ℚ) : ℚ × ℚ :=
  let dx := a.x - px
  let dy := a.y - py
  let dist := sq (dx * dx + dy * dy)
  if dist > 200 ∨ dist < 1 then (0, 0)
  else
    let lr := a.life / a.maxLife
    let force := a.strength * envelope lr / (dist * (1/20))
    ((dx / dist) * force, (dy / dist) * force)

/-- The query `applyAnomalies(px, py)` (mutation.js 165–188): sum of all active
anomalies' contributions. -/
def applyAnomalies (sq : ℚ → ℚ) (anoms : List Anomaly) (px py : ℚ) : ℚ × ℚ :=
  anoms.foldl (fun acc a =>
    let c := anomalyContrib sq a px py
    (acc.1 + c.1, acc.2 + c.2)) (0, 0)

/-- Truncation toward zero, the rounding JS applies before the `| 0`
coercion. -/
def ratTrunc (q : ℚ) : ℤ :=
  if q < 0 then -⌊-q⌋ else ⌊q⌋

/-- The JS `| 0` coercion (ToInt32): truncate, then wrap into
[-2^31, 2^31). -/
def jsToInt32 (q : ℚ) : ℤ :=
  Int.bmod (ratTrunc q) (2 ^ 32)

/-- A freehand stroke force point `{x, y, alpha}` handed to
`setStrokeForces`. -/
structure StrokePoint where
  x : ℚ
  y : ℚ
  alpha : ℚ
deriving DecidableEq

/-- The four particle arrays the physics step writes in place. -/
structure Arrs where
  x : ℕ → ℚ
  y : ℕ → ℚ
  vx : ℕ → ℚ
  vy : ℕ → ℚ

/-- Physics-engine state: the closure variables of `createPhysics`
(second physics variant, which extends `physics.js` with the cursor magnet,
stroke attractors and corner escape; the shared lines are verbatim
identical in both files).  The grid parameters `cellSize, cols, rows` are
the ones set by `gridInit`; `mutationAnoms` is the anomaly list of the
attached mutation engine (`null` ↦ `none`). -/
structure PhysState where
  W : ℚ
  H : ℚ
  N : ℕ
  SPEED : ℚ
  DAMP : ℚ
  RMAX : ℚ
  arrs : Arrs
  species : ℕ → ℕ
  sizeTier : ℕ → ℕ
  M : Mat
  mutationAnoms : Option (List Anomaly)
  cursorX : ℚ
  cursorY : ℚ
  cursorIntensity : ℚ
  strokeForcePoints : List StrokePoint
  cellSize : ℚ
  cols : ℕ
  rows : ℕ

/-- Clamped cell coordinates computed by `gridBuild` for one particle
(physics lines 62–66): `cx = (x*inv)|0` truncated-and-wrapped, then clamped
into [0, cols-1] (and likewise for rows). -/
def gridCell (cellSize : ℚ) (cols rows : ℕ) (px py : ℚ) : ℤ × ℤ :=
  let inv := 1 / cellSize
  let maxCol : ℤ := (cols : ℤ) - 1
  let maxRow : ℤ := (rows : ℤ) - 1
  let cx := jsToInt32 (px * inv)
  let cy := jsToInt32 (py * inv)
  (if cx < 0 then 0 else if cx > maxCol then maxCol else cx,
   if cy < 0 then 0 else if cy > maxRow then maxRow else cy)

/-- The bucket index `h = cy * cols + cx` `gridBuild` reads and writes
`head` at. -/
def gridHash (cellSize : ℚ) (cols rows : ℕ) (px py : ℚ) : ℤ :=
  let c := gridCell cellSize cols rows px py
  c.2 * (cols : ℤ) + c.1

/-- The rebuild `gridBuild()` (physics lines 57–71): reset `head` to -1, then thread
every particle into its bucket's linked chain (`next[i] = head[h];
head[h] = i`). -/
def gridBuild (st : PhysState) : (ℤ → ℤ) × (ℕ → ℤ) :=
  (List.range st.N).foldl
    (fun hn i =>
      let h := gridHash st.cellSize st.cols st.rows (st.arrs.x i) (st.arrs.y i)
      (fun h2 => if h2 = h then (i : ℤ) else hn.1 h2,
       fun j => if j = i then hn.1 h else hn.2 j))
    (fun _ => -1, fun _ => -1)

/-- Walk one bucket chain `for (j = head[h]; j !== -1; j = next[j])`,
accumulating with `f`.  The chain the build produces is acyclic with at most
`N` nodes, so the step passes fuel `N + 1`; fuel only bounds the traversal
and is never exhausted on a built grid. -/
def chainFold (next : ℕ → ℤ) (f : ℕ → ℚ × ℚ → ℚ × ℚ) :
    ℕ → ℤ → ℚ × ℚ → ℚ × ℚ
  | 0, _, acc => acc
  | fuel + 1, j, acc =>
    if j = -1 then acc
    else chainFold next f fuel (next j.toNat) (f j.toNat acc)

/-- Pairwise species-interaction force of neighbor `j` on particle `i`
(physics lines 90–109): skip self and `r2 = 0` or `r2 > RMAX²`; inside
`rcore = RMAX*0.25` an unconditional repulsion, outside the species-weighted
`s * (1 - t²)` falloff; accumulated along `(dx, dy) * invr` with
`invr = 1/(r + 1e-6)`. -/
def pairAccum (sq : ℚ → ℚ) (RMAX : ℚ) (M : Mat) (species : ℕ → ℕ) (arrs : Arrs)
    (i j : ℕ) (acc : ℚ × ℚ) : ℚ × ℚ :=
  if j = i then acc
  else
    let dx := arrs.x j - arrs.x i
    let dy := arrs.y j - arrs.y i
    let r2 := dx * dx + dy * dy
    if r2 = 0 ∨ r2 > RMAX * RMAX then acc
    else
      let r := sq r2
      let s := M (species i) (species j)
      let rcore := RMAX * (1/4)
      let f :=
        if r < rcore then -1 * (rcore - r) / rcore
        else
          let t := (r - rcore) / (RMAX - rcore)
          s * (1 - t * t)
      let invr := 1 / (r + 1/1000000)
      (acc.1 + dx * invr * f, acc.2 + dy * invr * f)

/-- The 3×3 cell-neighborhood offsets in JS iteration order
(`oy` outer, `ox` inner), as `(oy, ox)` pairs. -/
def offsets : List (ℤ × ℤ) :=
  [(-1, -1), (-1, 0), (-1, 1), (0, -1), (0, 0), (0, 1), (1, -1), (1, 0), (1, 1)]

/-- Neighbor-force accumulation for particle `i` (physics lines 77–111):
scan the 3×3 cell ring around `floor(x/cellSize), floor(y/cellSize)`,
skipping out-of-range cells, walking each bucket chain. -/
def neighborAccum (sq : ℚ → ℚ) (st : PhysState) (head : ℤ → ℤ)
    (next : ℕ → ℤ) (arrs : Arrs) (i : ℕ) : ℚ × ℚ :=
  let cx : ℤ := ⌊arrs.x i / st.cellSize⌋
  let cy : ℤ := ⌊arrs.y i / st.cellSize⌋
  offsets.foldl
    (fun acc o =>
      let ny := cy + o.1
      let nx := cx + o.2
      if nx < 0 ∨ nx ≥ (st.cols : ℤ) ∨ ny < 0 ∨ ny ≥ (st.rows : ℤ) then acc
      else
        chainFold next (pairAccum sq st.RMAX st.M st.species arrs i)
          (st.N + 1) (head (ny * (st.cols : ℤ) + nx)) acc)
    (0, 0)

/-- Cursor magnet force (second physics variant, lines 120–132). -/
def cursorForce (sq : ℚ → ℚ) (st : PhysState) (arrs : Arrs) (i : ℕ) :
    ℚ × ℚ :=
  if st.cursorIntensity > 0 then
    let cdx := st.cursorX - arrs.x i
    let cdy := st.cursorY - arrs.y i
    let cd2 := cdx * cdx + cdy * cdy
    if cd2 < 200 * 200 ∧ cd2 > 1/100 then
      let cd := sq cd2
      let t := 1 - cd / 200
      let cf := t * t * st.cursorIntensity * 50
      ((cdx / cd) * cf, (cdy / cd) * cf)
    else (0, 0)
  else (0, 0)

/-- Force value a stroke point would contribute at `(px, py)`:
`(1 - sd/160)² * alpha * 96` inside the band, 0 outside (second physics
variant, lines 135–147). -/
def strokeSf (sq : ℚ → ℚ) (sp : StrokePoint) (px py : ℚ) : ℚ :=
  let sdx := sp.x - px
  let sdy := sp.y - py
  let sd2 := sdx * sdx + sdy * sdy
  if sd2 < 160 * 160 ∧ sd2 > 1/100 then
    let sd := sq sd2
    (1 - sd / 160) * (1 - sd / 160) * sp.alpha * 96
  else 0

/-- Body of the stroke scan loop (second physics variant, lines 137–148):
the running best `(bestSF, bestSdx, bestSdy)` is replaced when an in-band
point's force value strictly exceeds it. -/
def strokeBest (sq : ℚ → ℚ) (px py : ℚ) (b : ℚ × ℚ × ℚ)
    (sp : StrokePoint) : ℚ × ℚ × ℚ :=
  let sdx := sp.x - px
  let sdy := sp.y - py
  let sd2 := sdx * sdx + sdy * sdy
  if sd2 < 160 * 160 ∧ sd2 > 1/100 then
    let sd := sq sd2
    let sf := (1 - sd / 160) * (1 - sd / 160) * sp.alpha * 96
    if sf > b.1 then (sf, sdx / sd, sdy / sd) else b
  else b

/-- Stroke attractor force (second physics variant, lines 134–149): scan
all stroke points keeping the one with the strictly largest force value
`sf`, and apply only that one. -/
def strokeForce (sq : ℚ → ℚ) (pts : List StrokePoint) (px py : ℚ) : ℚ × ℚ :=
  let best := pts.foldl (strokeBest sq px py) (0, 0, 0)
  if best.1 > 0 then (best.2.1 * best.1, best.2.2 * best.1) else (0, 0)

/-- The force cap (physics lines 151–153): `mag = hypot(ax, ay)`; when it
exceeds `MAX_FORCE = 200` the acceleration is rescaled onto the cap. -/
def capForce (sq : ℚ → ℚ) (ax ay : ℚ) : ℚ × ℚ :=
  let mag := sq (ax * ax + ay * ay)
  if mag > 200 then (ax * (200 / mag), ay * (200 / mag)) else (ax, ay)

/-- Hard clamp safety net for one axis (physics lines 186–187, two
sequential `if`s): positions below 0 snap to 0 with the velocity reflected
at half magnitude, positions above `W` snap to `W` likewise. -/
def hardClamp (W xv vv : ℚ) : ℚ × ℚ :=
  let p := if xv < 0 then ((0 : ℚ), |vv| * (1/2)) else (xv, vv)
  if p.1 > W then (W, -|p.2| * (1/2)) else p

/-- Full per-particle update of the physics `step` loop body (second
physics variant, lines 77–189): accumulate neighbor, anomaly, cursor and
stroke forces, cap, integrate velocity with jitter and damping, integrate
position, apply the soft boundary, the corner escape, and the hard clamp;
write only index `i` of the four arrays.  Particle `i` consumes the jitter
draws `rng (2i)` and `rng (2i+1)`. -/
def stepParticle (sq : ℚ → ℚ) (rng : ℕ → ℚ) (st : PhysState)
    (head : ℤ → ℤ) (next : ℕ → ℤ) (dtSpeed : ℚ) (arrs : Arrs) (i : ℕ) :
    Arrs :=
  let nb := neighborAccum sq st head next arrs i
  let an :=
    match st.mutationAnoms with
    | some anoms => applyAnomalies sq anoms (arrs.x i) (arrs.y i)
    | none => (0, 0)
  let cu := cursorForce sq st arrs i
  let sk := strokeForce sq st.strokeForcePoints (arrs.x i) (arrs.y i)
  let c := capForce sq (nb.1 + an.1 + cu.1 + sk.1) (nb.2 + an.2 + cu.2 + sk.2)
  let vx2 := (arrs.vx i + c.1 * dtSpeed + (rng (2 * i) - 1/2) * (1/100)) * st.DAMP
  let vy2 := (arrs.vy i + c.2 * dtSpeed + (rng (2 * i + 1) - 1/2) * (1/100)) * st.DAMP
  let x2 := arrs.x i + vx2 * dtSpeed
  let y2 := arrs.y i + vy2 * dtSpeed
  let vx3 :=
    if x2 < 40 then vx2 + (40 - x2) / 40 * (1/2)
    else if x2 > st.W - 40 then vx2 - (x2 - (st.W - 40)) / 40 * (1/2)
    else vx2
  let vy3 :=
    if y2 < 40 then vy2 + (40 - y2) / 40 * (1/2)
    else if y2 > st.H - 40 then vy2 - (y2 - (st.H - 40)) / 40 * (1/2)
    else vy2
  let corner :=
    if (x2 < 80 ∨ x2 > st.W - 80) ∧ (y2 < 80 ∨ y2 > st.H - 80) then
      let dx2 := if x2 < 80 then x2 else st.W - x2
      let dy2 := if y2 < 80 then y2 else st.H - y2
      let cf2 := (1 - min dx2 dy2 / 80) * (12/10)
      (vx3 + (if x2 < 80 then cf2 else 0) - (if x2 > st.W - 80 then cf2 else 0),
       vy3 + (if y2 < 80 then cf2 else 0) - (if y2 > st.H - 80 then cf2 else 0))
    else (vx3, vy3)
  let px := hardClamp st.W x2 corner.1
  let py := hardClamp st.H y2 corner.2
  ⟨fun j => if j = i then px.1 else arrs.x j,
   fun j => if j = i then py.1 else arrs.y j,
   fun j => if j = i then px.2 else arrs.vx j,
   fun j => if j = i then py.2 else arrs.vy j⟩

/-- The `step(dt)` function of the physics engine (second physics variant, lines
73–191): rebuild the grid from the current positions, then run the
in-place per-particle loop over `i = 0 .. N-1`; only the position and
velocity arrays change. -/
def physicsStep (sq : ℚ → ℚ) (rng : ℕ → ℚ) (st : PhysState) (dt : ℚ) :
    PhysState :=
  let hn := gridBuild st
  let dtSpeed := dt * st.SPEED
  let arrs2 := (List.range st.N).foldl
    (stepParticle sq rng st hn.1 hn.2 dtSpeed) st.arrs
  { st with arrs := arrs2 }

/-- The draw `weightedTier()` from the second genesis variant (appended after
mutation.js, lines 221–228): five buckets with the 3.0× giant tier on the
top decile and the rest sharing the remaining mass equally. -/
def weightedTier (r : ℚ) : ℕ :=
  if r < 225/1000 then 0
  else if r < 450/1000 then 1
  else if r < 675/1000 then 2
  else if r < 900/1000 then 3
  else 4

/-- The size-tier draw of `assignSpecies` in `genesis.js` (lines 88, 103,
118): `Math.floor(Math.random() * 5)` — uniform over the five tiers. -/
def uniformTier (r : ℚ) : ℕ :=
  (⌊r * 5⌋).toNat

/-- The stroke selection rule as the specification words it: each particle
is pulled by its single nearest in-band stroke point.  Modelled from the
spec ("each particle is pulled only by its single nearest stroke point
across all active strokes"), for comparison against the source's
`strokeForce`; ties go to the earlier point. -/
def nearestStrokeForceSpec (sq : ℚ → ℚ) (pts : List StrokePoint)
    (px py : ℚ) : ℚ × ℚ :=
  let best := pts.foldl
    (fun (b : Option (ℚ × StrokePoint)) sp =>
      let sdx := sp.x - px
      let sdy := sp.y - py
      let sd2 := sdx * sdx + sdy * sdy
      if sd2 < 160 * 160 ∧ sd2 > 1/100 then
        match b with
        | none => some (sd2, sp)
        | some (d0, _) => if sd2 < d0 then some (sd2, sp) else b
      else b)
    none
  match best with
  | none => (0, 0)
  | some (sd2, sp) =>
    let sd := sq sd2
    let sf := (1 - sd / 160) * (1 - sd / 160) * sp.alpha * 96
    (((sp.x - px) / sd) * sf, ((sp.y - py) / sd) * sf)

section DriftLemmas

lemma mupd_self (f : Mat) (a b : ℕ) (v : ℚ) : mupd f a b v a b = v := by
  simp [mupd]

lemma mupd_ne (f : Mat) (a b a2 b2 : ℕ) (v : ℚ) (h : ¬(a2 = a ∧ b2 = b)) :
    mupd f a b v a2 b2 = f a2 b2 := by
  simp only [mupd, if_neg h]

lemma driftCell_M_ne (noise : ℕ → ℕ → ℚ → ℚ) (rng : ℕ → ℚ)
    (intensity time : ℚ) (s : DriftState) (c : ℕ × ℕ) (a b : ℕ)
    (h : ¬(a = c.1 ∧ b = c.2)) :
    (driftCell noise rng intensity time s c).M a b = s.M a b := by
  unfold driftCell
  dsimp only
  split <;> exact mupd_ne _ _ _ _ _ _ h

lemma driftCell_T_ne (noise : ℕ → ℕ → ℚ → ℚ) (rng : ℕ → ℚ)
    (intensity time : ℚ) (s : DriftState) (c : ℕ × ℕ) (a b : ℕ)
    (h : ¬(a = c.1 ∧ b = c.2)) :
    (driftCell noise rng intensity time s c).T a b = s.T a b := by
  unfold driftCell
  dsimp only
  split
  · exact mupd_ne _ _ _ _ _ _ h
  · rfl

lemma driftFold_M_ne (noise : ℕ → ℕ → ℚ → ℚ) (rng : ℕ → ℚ)
    (intensity time : ℚ) (a b : ℕ) :
    ∀ (l : List (ℕ × ℕ)) (s : DriftState), (a, b) ∉ l →
      (l.foldl (driftCell noise rng intensity time) s).M a b = s.M a b ∧
      (l.foldl (driftCell noise rng intensity time) s).T a b = s.T a b := by
  intro l
  induction l with
  | nil => intro s _; exact ⟨rfl, rfl⟩
  | cons c t ih =>
    intro s hmem
    have hc : (a, b) ≠ c := fun h => hmem (h ▸ List.mem_cons_self c t)
    have ht : (a, b) ∉ t := fun h => hmem (List.mem_cons_of_mem c h)
    have hne : ¬(a = c.1 ∧ b = c.2) := by
      rintro ⟨h1, h2⟩
      exact hc (Prod.ext h1 h2)
    rcases ih (driftCell noise rng intensity time s c) ht with ⟨hM, hT⟩
    exact ⟨hM.trans (driftCell_M_ne _ _ _ _ _ _ _ _ hne),
           hT.trans (driftCell_T_ne _ _ _ _ _ _ _ _ hne)⟩

lemma mem_cellList (S a b : ℕ) : (a, b) ∈ cellList S ↔ a < S ∧ b < S := by
  simp [cellList, List.mem_flatMap, List.mem_map, List.mem_range, Prod.ext_iff]

lemma cellList_nodup (S : ℕ) : (cellList S).Nodup := by
  rw [cellList, List.nodup_flatMap]
  constructor
  · intro a _
    exact (List.nodup_range S).map (fun b1 b2 h => by
      simpa using congrArg Prod.snd h)
  · have : (List.range S).Pairwise (· ≠ ·) :=
      (List.pairwise_lt_range S).imp fun h => Nat.ne_of_lt h
    refine this.imp ?_
    intro a1 a2 hne
    rw [Function.onFun, List.disjoint_left]
    rintro p hp1 hp2
    rcases List.mem_map.mp hp1 with ⟨b1, _, rfl⟩
    rcases List.mem_map.mp hp2 with ⟨b2, _, h⟩
    exact hne (congrArg Prod.fst h.symm)

end DriftLemmas

section DriftCharacterization

/-- What the drift loop does to one in-range cell: since the row-major cell
list visits `(a, b)` exactly once, the cell's final value is a single lerp
of its initial value, and its target is re-drawn exactly when the lerped
value lands within 0.02 of the old target. -/
lemma driftPhase_cell (noise : ℕ → ℕ → ℚ → ℚ) (rng : ℕ → ℚ)
    (intensity time : ℚ) (M T : Mat) (k S a b : ℕ)
    (ha : a < S) (hb : b < S) :
    (driftPhase noise rng intensity time M T k S).M a b =
      M a b + (T a b - M a b) *
        ((1/1000 * intensity) * (1 + noise a b time * (8/10))) ∧
    ((|M a b + (T a b - M a b) *
        ((1/1000 * intensity) * (1 + noise a b time * (8/10))) - T a b| < 1/50 →
      ∃ j, (driftPhase noise rng intensity time M T k S).T a b = 2 * rng j - 1) ∧
     (¬ |M a b + (T a b - M a b) *
        ((1/1000 * intensity) * (1 + noise a b time * (8/10))) - T a b| < 1/50 →
      (driftPhase noise rng intensity time M T k S).T a b = T a b)) := by
  have hmem : (a, b) ∈ cellList S := (mem_cellList S a b).mpr ⟨ha, hb⟩
  obtain ⟨l1, l2, hsplit⟩ := List.append_of_mem hmem
  have hnd : (cellList S).Nodup := cellList_nodup S
  rw [hsplit] at hnd
  have hnotl1 : (a, b) ∉ l1 := by
    rcases List.nodup_append.mp hnd with ⟨_, _, hdisj⟩
    intro hmem1
    exact hdisj hmem1 (List.mem_cons_self _ _)
  have hnotl2 : (a, b) ∉ l2 := by
    rcases List.nodup_append.mp hnd with ⟨_, hnd2, _⟩
    exact (List.nodup_cons.mp hnd2).1
  unfold driftPhase
  rw [hsplit, List.foldl_append, List.foldl_cons]
  set s1 := l1.foldl (driftCell noise rng intensity time) ⟨M, T, k⟩ with hs1
  obtain ⟨hM1, hT1⟩ :=
    driftFold_M_ne noise rng intensity time a b l1 ⟨M, T, k⟩ hnotl1
  have hM1' : s1.M a b = M a b := hM1
  have hT1' : s1.T a b = T a b := hT1
  set s2 := driftCell noise rng intensity time s1 (a, b) with hs2
  obtain ⟨hM2, hT2⟩ :=
    driftFold_M_ne noise rng intensity time a b l2 s2 hnotl2
  have hcellM : s2.M a b =
      M a b + (T a b - M a b) *
        ((1/1000 * intensity) * (1 + noise a b time * (8/10))) := by
    rw [hs2]
    unfold driftCell
    dsimp only
    split <;> simp [mupd_self, hM1', hT1']
  constructor
  · rw [hM2, hcellM]
  constructor
  · intro hclose
    refine ⟨s1.k, ?_⟩
    rw [hT2, hs2]
    unfold driftCell
    dsimp only
    rw [if_pos (by rw [hM1', hT1']; exact hclose)]
    simp [mupd_self]
  · intro hfar
    rw [hT2, hs2]
    unfold driftCell
    dsimp only
    rw [if_neg (by rw [hM1', hT1']; exact hfar)]
    exact hT1'

/-- Every target cell after the drift loop is either carried over unchanged
or freshly drawn as `Math.random()*2-1`. -/
lemma driftFold_carryFresh (noise : ℕ → ℕ → ℚ → ℚ) (rng : ℕ → ℚ)
    (intensity time : ℚ) :
    ∀ (l : List (ℕ × ℕ)) (s : DriftState) (a b : ℕ),
      (l.foldl (driftCell noise rng intensity time) s).T a b = s.T a b ∨
      ∃ j, (l.foldl (driftCell noise rng intensity time) s).T a b =
        2 * rng j - 1 := by
  intro l
  induction l with
  | nil => intro s a b; exact Or.inl rfl
  | cons c t ih =>
    intro s a b
    rcases ih (driftCell noise rng intensity time s c) a b with h | h
    · rw [List.foldl_cons] at *
      rw [h]
      unfold driftCell
      dsimp only
      split
      · by_cases hab : a = c.1 ∧ b = c.2
        · exact Or.inr ⟨s.k, by rw [hab.1, hab.2]; simp only [mupd_self]⟩
        · exact Or.inl (mupd_ne _ _ _ _ _ _ hab)
      · exact Or.inl rfl
    · exact Or.inr h

/-- Targets bounded in [-1, 1) are preserved by the drift loop whenever the
random stream stays in [0, 1). -/
lemma driftFold_bounds (noise : ℕ → ℕ → ℚ → ℚ) (rng : ℕ → ℚ)
    (intensity time : ℚ) (hr : ∀ n, 0 ≤ rng n ∧ rng n < 1) :
    ∀ (l : List (ℕ × ℕ)) (s : DriftState),
      (∀ a b, -1 ≤ s.T a b ∧ s.T a b < 1) →
      ∀ a b, -1 ≤ (l.foldl (driftCell noise rng intensity time) s).T a b ∧
        (l.foldl (driftCell noise rng intensity time) s).T a b < 1 := by
  intro l
  induction l with
  | nil => intro s hs a b; exact hs a b
  | cons c t ih =>
    intro s hs a b
    rw [List.foldl_cons]
    refine ih _ ?_ a b
    intro a2 b2
    unfold driftCell
    dsimp only
    split
    · by_cases hab : a2 = c.1 ∧ b2 = c.2
      · rw [hab.1, hab.2]
        simp only [mupd_self]
        rcases hr s.k with ⟨h0, h1⟩
        constructor <;> linarith
      · dsimp only
        rw [mupd_ne _ _ _ _ _ _ hab]
        exact hs a2 b2
    · exact hs a2 b2

/-- The matrix returned by the mutation `step` is the drift loop's matrix,
and the stored targets are the drift loop's targets (the anomaly phase
touches neither). -/
lemma mutationStep_MT (noise : ℕ → ℕ → ℚ → ℚ) (rng : ℕ → ℚ) (M : Mat)
    (dt W H : ℚ) (st : MutState) :
    (mutationStep noise rng M dt W H st).1 =
      (driftPhase noise rng st.intensity (st.time + dt) M st.targets
        st.k st.S).M ∧
    (mutationStep noise rng M dt W H st).2.targets =
      (driftPhase noise rng st.intensity (st.time + dt) M st.targets
        st.k st.S).T := by
  unfold mutationStep
  dsimp only
  split <;> exact ⟨rfl, rfl⟩

end DriftCharacterization

section PhysicsLemmas

lemma hardClamp_bounds (W xv vv : ℚ) (hW : 0 ≤ W) :
    0 ≤ (hardClamp W xv vv).1 ∧ (hardClamp W xv vv).1 ≤ W := by
  unfold hardClamp
  dsimp only
  by_cases h1 : xv < 0
  · rw [if_pos h1]
    by_cases h2 : (0 : ℚ) > W
    · exact absurd h2 (not_lt.mpr hW)
    · rw [if_neg h2]
      exact ⟨le_refl 0, hW⟩
  · rw [if_neg h1]
    by_cases h2 : xv > W
    · rw [if_pos h2]
      exact ⟨hW, le_refl W⟩
    · rw [if_neg h2]
      exact ⟨not_lt.mp h1, not_lt.mp h2⟩

lemma stepParticle_ne (sq : ℚ → ℚ) (rng : ℕ → ℚ) (st : PhysState)
    (head : ℤ → ℤ) (next : ℕ → ℤ) (dtSpeed : ℚ) (arrs : Arrs) (i j : ℕ)
    (h : j ≠ i) :
    (stepParticle sq rng st head next dtSpeed arrs i).x j = arrs.x j ∧
    (stepParticle sq rng st head next dtSpeed arrs i).y j = arrs.y j := by
  unfold stepParticle
  dsimp only
  rw [if_neg h, if_neg h]
  exact ⟨rfl, rfl⟩

lemma stepParticle_clamped (sq : ℚ → ℚ) (rng : ℕ → ℚ) (st : PhysState)
    (head : ℤ → ℤ) (next : ℕ → ℤ) (dtSpeed : ℚ) (arrs : Arrs) (i : ℕ)
    (hW : 0 ≤ st.W) (hH : 0 ≤ st.H) :
    (0 ≤ (stepParticle sq rng st head next dtSpeed arrs i).x i ∧
      (stepParticle sq rng st head next dtSpeed arrs i).x i ≤ st.W) ∧
    (0 ≤ (stepParticle sq rng st head next dtSpeed arrs i).y i ∧
      (stepParticle sq rng st head next dtSpeed arrs i).y i ≤ st.H) := by
  unfold stepParticle
  dsimp only
  rw [if_pos rfl, if_pos rfl]
  exact ⟨hardClamp_bounds _ _ _ hW, hardClamp_bounds _ _ _ hH⟩

lemma foldParticles_ne (sq : ℚ → ℚ) (rng : ℕ → ℚ) (st : PhysState)
    (head : ℤ → ℤ) (next : ℕ → ℤ) (dtSpeed : ℚ) (j : ℕ) :
    ∀ (l : List ℕ) (arrs : Arrs), j ∉ l →
      (l.foldl (stepParticle sq rng st head next dtSpeed) arrs).x j =
        arrs.x j ∧
      (l.foldl (stepParticle sq rng st head next dtSpeed) arrs).y j =
        arrs.y j := by
  intro l
  induction l with
  | nil => intro arrs _; exact ⟨rfl, rfl⟩
  | cons i t ih =>
    intro arrs hmem
    have hji : j ≠ i := fun h => hmem (h ▸ List.mem_cons_self i t)
    have hjt : j ∉ t := fun h => hmem (List.mem_cons_of_mem i h)
    rw [List.foldl_cons]
    rcases ih (stepParticle sq rng st head next dtSpeed arrs i) hjt with ⟨hx, hy⟩
    rcases stepParticle_ne sq rng st head next dtSpeed arrs i j hji with ⟨hx2, hy2⟩
    exact ⟨hx.trans hx2, hy.trans hy2⟩

lemma foldParticles_clamped (sq : ℚ → ℚ) (rng : ℕ → ℚ) (st : PhysState)
    (head : ℤ → ℤ) (next : ℕ → ℤ) (dtSpeed : ℚ)
    (hW : 0 ≤ st.W) (hH : 0 ≤ st.H) (j : ℕ) :
    ∀ (l : List ℕ) (arrs : Arrs), j ∈ l → l.Nodup →
      (0 ≤ (l.foldl (stepParticle sq rng st head next dtSpeed) arrs).x j ∧
        (l.foldl (stepParticle sq rng st head next dtSpeed) arrs).x j ≤ st.W) ∧
      (0 ≤ (l.foldl (stepParticle sq rng st head next dtSpeed) arrs).y j ∧
        (l.foldl (stepParticle sq rng st head next dtSpeed) arrs).y j ≤ st.H) := by
  intro l
  induction l with
  | nil => intro arrs h; exact absurd h (List.not_mem_nil j)
  | cons i t ih =>
    intro arrs hmem hnd
    rcases List.nodup_cons.mp hnd with ⟨hit, hndt⟩
    rw [List.foldl_cons]
    by_cases hji : j = i
    · subst hji
      have hjt : j ∉ t := hit
      rcases foldParticles_ne sq rng st head next dtSpeed j t
        (stepParticle sq rng st head next dtSpeed arrs j) hjt with ⟨hx, hy⟩
      rw [hx, hy]
      exact stepParticle_clamped sq rng st head next dtSpeed arrs j hW hH
    · rcases List.mem_cons.mp hmem with h | hmemt
      · exact absurd h hji
      · exact ih _ hmemt hndt

end PhysicsLemmas

section Fixtures

set_option maxRecDepth 8000

attribute [local semireducible] Rat.add Rat.mul Rat.inv Rat.sub

/-- Zero noise sample (a legal value of the simplex field, which ranges in
[-1, 1]). -/
def noiseZ : ℕ → ℕ → ℚ → ℚ := fun _ _ _ => 0

/-- Constant random stream 1/2. -/
def rngHalf : ℕ → ℚ := fun _ => 1/2

/-- Constant random stream 3/4. -/
def rngThreeQ : ℕ → ℚ := fun _ => 3/4

/-- Stream 1/2 except draw 27 (the strength draw of the first spawn from
cursor 25) is 1/10. -/
def rngMirA : ℕ → ℚ := fun n => if n = 27 then 1/10 else 1/2

/-- Mirror image of `rngMirA`: draw 27 is 9/10 = 1 - 1/10. -/
def rngMirB : ℕ → ℚ := fun n => if n = 27 then 9/10 else 1/2

/-- All-zero interaction matrix. -/
def MZ : Mat := fun _ _ => 0

/-- All-one interaction matrix (far from the zero targets, so no cell
refreshes during a drift pass). -/
def MOne : Mat := fun _ _ => 1

/-- All-zero target matrix. -/
def TZ : Mat := fun _ _ => 0

/-- A mutation state whose anomaly timer is about to cross the spawn
threshold: zero targets, no anomalies, timer 4.9 s, default intensity 0.3,
anomalies enabled, stream cursor 25 (as after `createMutation(5)`). -/
def stC4 : MutState := ⟨TZ, [], 49/10, 0, 3/10, true, 25, 5⟩

/-- Square-root oracle exact at the two radicands queried in the stroke
counterexample: 6400 ↦ 80 and 14400 ↦ 120 (the values `Math.sqrt` returns
there). -/
def sqStroke : ℚ → ℚ := fun q => if q = 6400 then 80 else if q = 14400 then 120 else 0

/-- Square-root oracle exact at the radicand queried in the anomaly
witness: 2500 ↦ 50. -/
def sqAnom : ℚ → ℚ := fun q => if q = 2500 then 50 else 0

/-- Square-root over-approximation `q ↦ 1 + |q|`, a legal cap oracle on all
of ℚ. -/
def sqUpper : ℚ → ℚ := fun q => 1 + |q|

/-- Stroke point at (80, 0) with a nearly decayed alpha 0.01. -/
def ptA : StrokePoint := ⟨80, 0, 1/100⟩

/-- Stroke point at (-120, 0) with full alpha 1. -/
def ptB : StrokePoint := ⟨-120, 0, 1⟩

/-- A one-particle world, 10×10, used to instantiate the physics step. -/
def physW : PhysState :=
  ⟨10, 10, 1, 1, 1, 8,
   ⟨fun _ => 5, fun _ => 5, fun _ => 0, fun _ => 0⟩,
   fun _ => 0, fun _ => 0, MZ, none, -99999, -99999, 0, [], 8, 2, 2⟩

end Fixtures

section ClaimTheorems

set_option maxRecDepth 8000

attribute [local semireducible] Rat.add Rat.mul Rat.inv Rat.sub

lemma clampInt_bounds (v m : ℤ) (hm : 0 ≤ m) :
    0 ≤ (if v < 0 then 0 else if v > m then m else v) ∧
    (if v < 0 then 0 else if v > m then m else v) ≤ m := by
  split_ifs <;> omega

/-- C9: for any particle coordinates — including ones far outside the world
after numeric drift — `gridBuild`'s clamped cell coordinates give a bucket
index `cy*cols + cx` inside `[0, cols*rows)`, so every `head` read and write
of the rebuild stays in bounds (`gridBuild` indexes `head` only through
`gridHash`). -/
theorem c9_grid_hash_bounds (cellSize : ℚ) (cols rows : ℕ)
    (hc : 1 ≤ cols) (hr : 1 ≤ rows) (px py : ℚ) :
    0 ≤ gridHash cellSize cols rows px py ∧
    gridHash cellSize cols rows px py < (cols : ℤ) * (rows : ℤ) := by
  unfold gridHash gridCell
  dsimp only
  have hc' : (1 : ℤ) ≤ (cols : ℤ) := by exact_mod_cast hc
  have hr' : (1 : ℤ) ≤ (rows : ℤ) := by exact_mod_cast hr
  obtain ⟨hx0, hx1⟩ := clampInt_bounds (jsToInt32 (px * (1 / cellSize)))
    ((cols : ℤ) - 1) (by omega)
  obtain ⟨hy0, hy1⟩ := clampInt_bounds (jsToInt32 (py * (1 / cellSize)))
    ((rows : ℤ) - 1) (by omega)
  constructor
  · have := mul_nonneg hy0 (by omega : (0:ℤ) ≤ (cols : ℤ))
    omega
  · have hmul : (if jsToInt32 (py * (1 / cellSize)) < 0 then 0
        else if jsToInt32 (py * (1 / cellSize)) > (rows : ℤ) - 1 then (rows : ℤ) - 1
        else jsToInt32 (py * (1 / cellSize))) * (cols : ℤ) ≤
        ((rows : ℤ) - 1) * (cols : ℤ) := by
      exact mul_le_mul_of_nonneg_right hy1 (by omega)
    nlinarith

/-- C9 witness: a wildly out-of-range position (-500, 10⁹) in a 10×10-cell
grid still hashes into [0, 100). -/
theorem c9_grid_hash_bounds_witness :
    0 ≤ gridHash 80 10 10 (-500) (10 ^ 9) ∧
    gridHash 80 10 10 (-500) (10 ^ 9) < (10 : ℤ) * (10 : ℤ) :=
  c9_grid_hash_bounds 80 10 10 (by norm_num) (by norm_num) (-500) (10 ^ 9)

/-- C10: the physics `step` mutates only the position/velocity arrays (and
rebuilds the derived grid); the species array, the size-tier array, the
interaction matrix, the particle count and the world size are returned
untouched. -/
theorem c10_step_frame (sq : ℚ → ℚ) (rng : ℕ → ℚ) (st : PhysState) (dt : ℚ) :
    (physicsStep sq rng st dt).species = st.species ∧
    (physicsStep sq rng st dt).sizeTier = st.sizeTier ∧
    (physicsStep sq rng st dt).M = st.M ∧
    (physicsStep sq rng st dt).N = st.N ∧
    (physicsStep sq rng st dt).W = st.W ∧
    (physicsStep sq rng st dt).H = st.H :=
  ⟨rfl, rfl, rfl, rfl, rfl, rfl⟩

/-- C6: whatever forces accumulate, the capped acceleration `capForce`
applies to the velocity (physics lines 151–153, between force accumulation
and integration) has magnitude at most `MAX_FORCE = 200` — stated on
squares to stay in ℚ — provided the square-root oracle never under-reports
(`Math.hypot` is exact on the reals, hence never under-reports). -/
theorem c6_force_cap (sq : ℚ → ℚ)
    (hsq : ∀ q, 0 ≤ q → 0 ≤ sq q ∧ q ≤ sq q * sq q) (ax ay : ℚ) :
    (capForce sq ax ay).1 ^ 2 + (capForce sq ax ay).2 ^ 2 ≤ 200 ^ 2 := by
  have hd : 0 ≤ ax * ax + ay * ay :=
    add_nonneg (mul_self_nonneg ax) (mul_self_nonneg ay)
  obtain ⟨h0, h2⟩ := hsq _ hd
  unfold capForce
  dsimp only
  split_ifs with hmag
  · have hm : 0 < sq (ax * ax + ay * ay) := lt_trans (by norm_num) hmag
    have key : (ax * (200 / sq (ax * ax + ay * ay))) ^ 2 +
        (ay * (200 / sq (ax * ax + ay * ay))) ^ 2 =
        (ax * ax + ay * ay) * (200 / sq (ax * ax + ay * ay)) ^ 2 := by ring
    rw [key]
    have hstep : (ax * ax + ay * ay) * (200 / sq (ax * ax + ay * ay)) ^ 2 ≤
        (sq (ax * ax + ay * ay) * sq (ax * ax + ay * ay)) *
          (200 / sq (ax * ax + ay * ay)) ^ 2 :=
      mul_le_mul_of_nonneg_right h2 (sq_nonneg _)
    refine le_trans hstep (le_of_eq ?_)
    field_simp
    ring
  · push_neg at hmag
    nlinarith

/-- C6 witness: the oracle `q ↦ 1 + |q|` never under-reports, and the cap
bound holds at the concrete accumulated acceleration (300, 400). -/
theorem c6_force_cap_witness :
    (capForce sqUpper 300 400).1 ^ 2 + (capForce sqUpper 300 400).2 ^ 2 ≤ 200 ^ 2 :=
  c6_force_cap sqUpper
    (fun q hq => by
      unfold sqUpper
      refine ⟨by positivity, ?_⟩
      nlinarith [le_abs_self q, abs_nonneg q])
    300 400

/-- C5: after any call to the physics `step`, every particle's position
components lie in [0, W] × [0, H]: the trailing hard clamp (physics lines
186–189) forces this for every particle the loop writes, for any world with
nonnegative extent, any square-root oracle and any jitter stream. -/
theorem c5_positions_clamped (sq : ℚ → ℚ) (rng : ℕ → ℚ) (st : PhysState)
    (dt : ℚ) (hW : 0 ≤ st.W) (hH : 0 ≤ st.H) (i : ℕ) (hi : i < st.N) :
    (0 ≤ (physicsStep sq rng st dt).arrs.x i ∧
      (physicsStep sq rng st dt).arrs.x i ≤ st.W) ∧
    (0 ≤ (physicsStep sq rng st dt).arrs.y i ∧
      (physicsStep sq rng st dt).arrs.y i ≤ st.H) := by
  have harr : (physicsStep sq rng st dt).arrs =
      (List.range st.N).foldl
        (stepParticle sq rng st (gridBuild st).1 (gridBuild st).2
          (dt * st.SPEED)) st.arrs := rfl
  rw [harr]
  exact foldParticles_clamped sq rng st (gridBuild st).1 (gridBuild st).2
    (dt * st.SPEED) hW hH i (List.range st.N) st.arrs
    (List.mem_range.mpr hi) (List.nodup_range st.N)

/-- C5 witness: the clamp invariant applied to a concrete one-particle
10×10 world. -/
theorem c5_positions_clamped_witness :
    (0 ≤ (physicsStep sqUpper rngHalf physW (1/60)).arrs.x 0 ∧
      (physicsStep sqUpper rngHalf physW (1/60)).arrs.x 0 ≤ physW.W) ∧
    (0 ≤ (physicsStep sqUpper rngHalf physW (1/60)).arrs.y 0 ∧
      (physicsStep sqUpper rngHalf physW (1/60)).arrs.y 0 ≤ physW.H) :=
  c5_positions_clamped sqUpper rngHalf physW (1/60)
    (by norm_num [physW]) (by norm_num [physW]) 0 (by norm_num [physW])

end ClaimTheorems

section ClaimTheorems2

set_option maxRecDepth 8000

attribute [local semireducible] Rat.add Rat.mul Rat.inv Rat.sub

/-- C2: for an anomaly and a query point whose true distance `d` lies in
the force band [1, 200], the exerted force is
`strength * envelope(life/maxLife) / (d * 0.05)` along the unit vector
toward the anomaly — its squared magnitude is exactly the square of that
scalar — and the envelope ramps linearly up from 0 over the first 20 % of
remaining life (`lr < 1/5 ↦ 5·lr`) and back down to 0 over the remaining
80 % (`lr ≥ 1/5 ↦ (1-lr)·5/4`), meeting continuously at `envelope (1/5) = 1`. -/
theorem c2_anomaly_band_force (sq : ℚ → ℚ) (a : Anomaly) (px py d : ℚ)
    (hd : d * d = (a.x - px) * (a.x - px) + (a.y - py) * (a.y - py))
    (h1 : 1 ≤ d) (h2 : d ≤ 200)
    (hsq : sq ((a.x - px) * (a.x - px) + (a.y - py) * (a.y - py)) = d) :
    anomalyContrib sq a px py =
      (((a.x - px) / d) *
        (a.strength * envelope (a.life / a.maxLife) / (d * (1/20))),
       ((a.y - py) / d) *
        (a.strength * envelope (a.life / a.maxLife) / (d * (1/20)))) ∧
    (anomalyContrib sq a px py).1 ^ 2 + (anomalyContrib sq a px py).2 ^ 2 =
      (a.strength * envelope (a.life / a.maxLife) / (d * (1/20))) ^ 2 ∧
    applyAnomalies sq [a] px py = anomalyContrib sq a px py ∧
    (∀ lr : ℚ, lr < 1/5 → envelope lr = 5 * lr) ∧
    (∀ lr : ℚ, 1/5 ≤ lr → envelope lr = (1 - lr) * (5/4)) ∧
    envelope 0 = 0 ∧ envelope (1/5) = 1 ∧ envelope 1 = 0 := by
  have hd0 : d ≠ 0 := by linarith
  have hcontrib : anomalyContrib sq a px py =
      (((a.x - px) / d) *
        (a.strength * envelope (a.life / a.maxLife) / (d * (1/20))),
       ((a.y - py) / d) *
        (a.strength * envelope (a.life / a.maxLife) / (d * (1/20)))) := by
    unfold anomalyContrib
    dsimp only
    rw [hsq, if_neg (by push_neg; exact ⟨by linarith, by linarith⟩)]
  refine ⟨hcontrib, ?_, ?_, ?_, ?_, ?_, ?_, ?_⟩
  · have hsum : ((a.x - px) / d) ^ 2 + ((a.y - py) / d) ^ 2 = 1 := by
      field_simp
      linear_combination (-1 : ℚ) * hd
    rw [hcontrib]
    dsimp only
    linear_combination
      (a.strength * envelope (a.life / a.maxLife) / (d * (1/20))) ^ 2 * hsum
  · unfold applyAnomalies
    rw [List.foldl_cons, List.foldl_nil]
    dsimp only
    rw [zero_add, zero_add]
  · intro lr h5
    unfold envelope
    rw [if_pos h5, div_eq_iff (by norm_num : (1:ℚ)/5 ≠ 0)]
    ring
  · intro lr h5
    unfold envelope
    rw [if_neg (not_lt.mpr h5), div_eq_iff (by norm_num : (4:ℚ)/5 ≠ 0)]
    ring
  · norm_num [envelope]
  · norm_num [envelope]
  · norm_num [envelope]

/-- C2 witness: the anomaly at (30, 40) with strength 2, life 1, maxLife 2
acts on the origin (true distance 50, inside the band) with squared force
magnitude `(2 * envelope(1/2) / (50 * 0.05))²` — the oracle is exact there,
`sqAnom 2500 = 50`. -/
theorem c2_anomaly_band_force_witness :
    (anomalyContrib sqAnom ⟨30, 40, 2, 1, 2⟩ 0 0).1 ^ 2 +
      (anomalyContrib sqAnom ⟨30, 40, 2, 1, 2⟩ 0 0).2 ^ 2 =
      ((Anomaly.mk 30 40 2 1 2).strength *
        envelope ((Anomaly.mk 30 40 2 1 2).life / (Anomaly.mk 30 40 2 1 2).maxLife) /
        (50 * (1/20))) ^ 2 :=
  (c2_anomaly_band_force sqAnom ⟨30, 40, 2, 1, 2⟩ 0 0 50
    (by norm_num) (by norm_num) (by norm_num) (by norm_num [sqAnom])).2.1

/-- C7 counterexample: the size-tier draw of `genesis.js`'s `assignSpecies`
is `Math.floor(Math.random()*5)`, which sends the draw 0.85 to the giant
tier 4 although 0.85 is below the 90 % threshold of the claimed weighted
distribution (under which the giant tier only gets the top decile, and 0.85
gets tier 3): the giant tier has probability 1/5, not ≈1/10, in this
variant. -/
theorem c7_uniform_tier_counterexample :
    uniformTier (17/20) = 4 ∧ weightedTier (17/20) = 3 := by
  constructor
  · decide
  · decide

/-- C7 (amended): the `weightedTier` draw of the second genesis variant
realises exactly the claimed distribution — on a uniform draw `r ∈ [0,1)`
tier 4 (the 3.0× giant) is hit iff `r ∈ [0.9, 1)` (probability 1/10) and
each other tier is hit on an interval of width 0.225 — whereas
`genesis.js`'s `assignSpecies` draws tiers uniformly: its giant preimage is
`[4/5, 1)` (probability 1/5). -/
theorem c7_tier_distribution (r : ℚ) (h0 : 0 ≤ r) (h1 : r < 1) :
    (weightedTier r = 0 ↔ r < 9/40) ∧
    (weightedTier r = 1 ↔ 9/40 ≤ r ∧ r < 9/20) ∧
    (weightedTier r = 2 ↔ 9/20 ≤ r ∧ r < 27/40) ∧
    (weightedTier r = 3 ↔ 27/40 ≤ r ∧ r < 9/10) ∧
    (weightedTier r = 4 ↔ 9/10 ≤ r) ∧
    (uniformTier r = 4 ↔ 4/5 ≤ r) := by
  have huni : uniformTier r = 4 ↔ 4/5 ≤ r := by
    unfold uniformTier
    constructor
    · intro h
      have hnn : 0 ≤ ⌊r * 5⌋ := Int.floor_nonneg.mpr (by positivity)
      have hfl : ⌊r * 5⌋ = 4 := by omega
      have h4 : (4 : ℚ) ≤ r * 5 := by
        have := (Int.floor_eq_iff.mp hfl).1
        exact_mod_cast this
      linarith
    · intro h
      have hfl : ⌊r * 5⌋ = 4 := by
        rw [Int.floor_eq_iff]
        constructor
        · push_cast
          linarith
        · push_cast
          linarith
      rw [hfl]
      rfl
  refine ⟨?_, ?_, ?_, ?_, ?_, huni⟩ <;>
  · unfold weightedTier
    split_ifs with ha hb hc hd <;>
      constructor <;> intro hx <;>
        first
          | rfl
          | linarith
          | (refine ⟨?_, ?_⟩ <;> linarith)
          | (exact absurd hx (by decide))

/-- C7 witness: the characterization applied at the concrete draw 0.95,
which is in the giant decile for `weightedTier`. -/
theorem c7_tier_distribution_witness :
    weightedTier (19/20) = 4 ↔ (9:ℚ)/10 ≤ 19/20 :=
  (c7_tier_distribution (19/20) (by norm_num) (by norm_num)).2.2.2.2.1

end ClaimTheorems2

section ClaimTheorems3

set_option maxRecDepth 8000

attribute [local semireducible] Rat.add Rat.mul Rat.inv Rat.sub

/-- C8: in every mutation step, each in-range matrix cell is lerped once
toward its target at the noise-modulated rate; whenever the updated value
lands within ε = 0.02 of the target, that cell's target is replaced by a
fresh uniform draw `2·r - 1 ∈ [-1, 1)`, and otherwise the target is left
unchanged — so a cell sitting at its target (gap 0 < ε) always receives a
new target and the matrix never freezes. -/
theorem c8_target_refresh (noise : ℕ → ℕ → ℚ → ℚ) (rng : ℕ → ℚ) (M : Mat)
    (dt W H : ℚ) (st : MutState) (a b : ℕ) (ha : a < st.S) (hb : b < st.S)
    (hr : ∀ n, 0 ≤ rng n ∧ rng n < 1) :
    (mutationStep noise rng M dt W H st).1 a b =
      M a b + (st.targets a b - M a b) *
        ((1/1000 * st.intensity) * (1 + noise a b (st.time + dt) * (8/10))) ∧
    (|(mutationStep noise rng M dt W H st).1 a b - st.targets a b| < 1/50 →
      ∃ j, (mutationStep noise rng M dt W H st).2.targets a b = 2 * rng j - 1 ∧
        -1 ≤ 2 * rng j - 1 ∧ 2 * rng j - 1 < 1) ∧
    (¬ |(mutationStep noise rng M dt W H st).1 a b - st.targets a b| < 1/50 →
      (mutationStep noise rng M dt W H st).2.targets a b = st.targets a b) := by
  obtain ⟨hM, hT⟩ := mutationStep_MT noise rng M dt W H st
  have hM1 : (mutationStep noise rng M dt W H st).1 a b =
      (driftPhase noise rng st.intensity (st.time + dt) M st.targets
        st.k st.S).M a b := congrFun (congrFun hM a) b
  have hT1 : (mutationStep noise rng M dt W H st).2.targets a b =
      (driftPhase noise rng st.intensity (st.time + dt) M st.targets
        st.k st.S).T a b := congrFun (congrFun hT a) b
  obtain ⟨hcM, hclose, hfar⟩ :=
    driftPhase_cell noise rng st.intensity (st.time + dt) M st.targets
      st.k st.S a b ha hb
  refine ⟨hM1.trans hcM, ?_, ?_⟩
  · intro hc
    rw [hM1, hcM] at hc
    obtain ⟨j, hj⟩ := hclose hc
    rcases hr j with ⟨hj0, hj1⟩
    exact ⟨j, hT1.trans hj, by linarith, by linarith⟩
  · intro hc
    rw [hM1, hcM] at hc
    exact hT1.trans (hfar hc)

/-- C8 witness: with the constant stream 1/2, matrix and targets both zero
at cell (0,0) of a fresh 5-species engine, the step lerps the cell by the
stated formula (the gap is 0 < ε there, so the refresh branch is also
exercised by the theorem's hypotheses). -/
theorem c8_target_refresh_witness :
    (mutationStep noiseZ rngHalf MZ 1 100 100 (createMutation 5 rngHalf)).1 0 0 =
      MZ 0 0 + ((createMutation 5 rngHalf).targets 0 0 - MZ 0 0) *
        ((1/1000 * (createMutation 5 rngHalf).intensity) *
          (1 + noiseZ 0 0 ((createMutation 5 rngHalf).time + 1) * (8/10))) :=
  (c8_target_refresh noiseZ rngHalf MZ 1 100 100 (createMutation 5 rngHalf)
    0 0 (by decide) (by decide)
    (fun n => ⟨by norm_num [rngHalf], by norm_num [rngHalf]⟩)).1

/-- C1 counterexample: run `createMutation(5)` with every random draw equal
to 3/4 (a legal `Math.random()` value) and take one mutation step: each of
the five species has its first outgoing drift target equal to +1/2 (in
fact every target is 1/2), so no species's target row is forced into the
strongly negative band [-1, -0.8] — at this instant no species is rogue,
contradicting "exactly one of the S species is rogue at every instant". -/
theorem c1_rogue_counterexample :
    (mutationStep noiseZ rngThreeQ MZ (1/60) 100 100
      (createMutation 5 rngThreeQ)).2.targets 0 0 = 1/2 ∧
    (mutationStep noiseZ rngThreeQ MZ (1/60) 100 100
      (createMutation 5 rngThreeQ)).2.targets 1 0 = 1/2 ∧
    (mutationStep noiseZ rngThreeQ MZ (1/60) 100 100
      (createMutation 5 rngThreeQ)).2.targets 2 0 = 1/2 ∧
    (mutationStep noiseZ rngThreeQ MZ (1/60) 100 100
      (createMutation 5 rngThreeQ)).2.targets 3 0 = 1/2 ∧
    (mutationStep noiseZ rngThreeQ MZ (1/60) 100 100
      (createMutation 5 rngThreeQ)).2.targets 4 0 = 1/2 := by
  refine ⟨?_, ?_, ?_, ?_, ?_⟩ <;> decide

lemma mutationStepN_targets_bounds (noise : ℕ → ℕ → ℚ → ℚ) (rng : ℕ → ℚ)
    (dt W H : ℚ) (hr : ∀ m, 0 ≤ rng m ∧ rng m < 1) :
    ∀ (n : ℕ) (p : Mat × MutState),
      (∀ a b, -1 ≤ p.2.targets a b ∧ p.2.targets a b < 1) →
      ∀ a b, -1 ≤ (mutationStepN noise rng dt W H n p).2.targets a b ∧
        (mutationStepN noise rng dt W H n p).2.targets a b < 1 := by
  intro n
  induction n with
  | zero => intro p hp a b; exact hp a b
  | succ m ih =>
    intro p hp a b
    show -1 ≤ (mutationStepN noise rng dt W H m
        (mutationStep noise rng p.1 dt W H p.2)).2.targets a b ∧ _
    refine ih _ ?_ a b
    intro a2 b2
    rw [congrFun (congrFun (mutationStep_MT noise rng p.1 dt W H p.2).2 a2) b2]
    exact driftFold_bounds noise rng p.2.intensity (p.2.time + dt) hr
      (cellList p.2.S) ⟨p.1, p.2.targets, p.2.k⟩ hp a2 b2

/-- C1 (amended): the shipped mutation engine has no rogue species
mechanism at all — its state carries no rogue index, no target row is ever
forced to the strongly negative band and no rotation occurs.  Every drift
target is either carried over or replaced by a plain uniform draw
`2·r - 1`, and after any number of steps from `createMutation` all targets
lie in [-1, 1). -/
theorem c1_no_rogue_targets_plain (noise : ℕ → ℕ → ℚ → ℚ) (rng : ℕ → ℚ)
    (dt W H : ℚ) (M0 : Mat) (S n : ℕ)
    (hr : ∀ m, 0 ≤ rng m ∧ rng m < 1) :
    (∀ a b, -1 ≤ (mutationStepN noise rng dt W H n
        (M0, createMutation S rng)).2.targets a b ∧
      (mutationStepN noise rng dt W H n
        (M0, createMutation S rng)).2.targets a b < 1) ∧
    (∀ (M : Mat) (st : MutState) a b,
      (mutationStep noise rng M dt W H st).2.targets a b = st.targets a b ∨
      ∃ j, (mutationStep noise rng M dt W H st).2.targets a b =
        2 * rng j - 1) := by
  constructor
  · refine mutationStepN_targets_bounds noise rng dt W H hr n _ ?_
    intro a b
    show -1 ≤ (createMutation S rng).targets a b ∧ _
    unfold createMutation
    dsimp only
    split_ifs with h
    · rcases hr (a * S + b) with ⟨h0, h1⟩
      constructor <;> linarith
    · norm_num
  · intro M st a b
    rw [congrFun (congrFun (mutationStep_MT noise rng M dt W H st).2 a) b]
    exact driftFold_carryFresh noise rng st.intensity (st.time + dt)
      (cellList st.S) ⟨M, st.targets, st.k⟩ a b

/-- C1 witness: the target bound applied after one step of a fresh
5-species engine driven by the constant stream 1/2. -/
theorem c1_no_rogue_witness :
    -1 ≤ (mutationStepN noiseZ rngHalf (1/60) 100 100 1
        (MZ, createMutation 5 rngHalf)).2.targets 0 0 ∧
      (mutationStepN noiseZ rngHalf (1/60) 100 100 1
        (MZ, createMutation 5 rngHalf)).2.targets 0 0 < 1 :=
  (c1_no_rogue_targets_plain noiseZ rngHalf (1/60) 100 100 MZ 5 1
    (fun m => ⟨by norm_num [rngHalf], by norm_num [rngHalf]⟩)).1 0 0

end ClaimTheorems3

section ClaimTheorems4

set_option maxRecDepth 8000

attribute [local semireducible] Rat.add Rat.mul Rat.inv Rat.sub

/-- C4 counterexample: (1) four whole seconds elapse on a fresh engine
(default intensity 0.3) and no anomaly spawns — the actual threshold is
`4/(0.5+0.3) = 5` s, not a fixed ≈3.5 s timer; (2–3) two runs identical
except for the mirrored strength draws 1/10 and 9/10 spawn anomalies with
strengths -6/25 and +6/25: the strength map `r ↦ (r-0.5)·2·intensity` is
odd around r = 1/2, so the draw is symmetric, not biased toward
attraction. -/
theorem c4_spawn_counterexample :
    (mutationStep noiseZ rngHalf MOne 4 100 100
      (createMutation 5 rngHalf)).2.anomalies = [] ∧
    (mutationStep noiseZ rngMirA MOne (1/5) 100 100 stC4).2.anomalies =
      [⟨50, 50, -6/25, 51/20, 11/4⟩] ∧
    (mutationStep noiseZ rngMirB MOne (1/5) 100 100 stC4).2.anomalies =
      [⟨50, 50, 6/25, 51/20, 11/4⟩] := by
  refine ⟨?_, ?_, ?_⟩ <;> decide

/-- C4 (amended): an anomaly spawns exactly when the accumulated timer
crosses `4.0/(0.5+intensity)` seconds (5 s at the default intensity 0.3,
not a fixed ≈3.5 s), while anomalies are enabled and intensity is positive.
The spawned anomaly sits at a uniformly random world position; its strength
`(r-0.5)·2·intensity` is uniform in [-intensity, intensity] (symmetric, not
attraction-biased); its life and maxLife are independent draws from
[2, 3.5) seconds (within the claimed 2–4 s range); the whole list is then
aged by `dt` and pruned of dead anomalies. -/
theorem c4_spawn_characterization (noise : ℕ → ℕ → ℚ → ℚ) (rng : ℕ → ℚ)
    (M : Mat) (dt W H : ℚ) (st : MutState)
    (hen : st.anomaliesEnabled = true) (hint : 0 < st.intensity)
    (ht : st.anomalyTimer + dt > 4 / (1/2 + st.intensity))
    (hW : 0 < W) (hH : 0 < H) (hr : ∀ n, 0 ≤ rng n ∧ rng n < 1) :
    ∃ k,
      (mutationStep noise rng M dt W H st).2.anomalies =
        ((st.anomalies ++
          [(⟨rng k * W, rng (k+1) * H, (rng (k+2) - 1/2) * 2 * st.intensity,
            2 + rng (k+3) * (3/2), 2 + rng (k+4) * (3/2)⟩ : Anomaly)]).map
          (fun a => { a with life := a.life - dt })).filter
          (fun a => 0 < a.life) ∧
      0 ≤ rng k * W ∧ rng k * W < W ∧
      0 ≤ rng (k+1) * H ∧ rng (k+1) * H < H ∧
      -st.intensity ≤ (rng (k+2) - 1/2) * 2 * st.intensity ∧
      (rng (k+2) - 1/2) * 2 * st.intensity ≤ st.intensity ∧
      2 ≤ 2 + rng (k+3) * (3/2) ∧ 2 + rng (k+3) * (3/2) < 7/2 ∧
      2 ≤ 2 + rng (k+4) * (3/2) ∧ 2 + rng (k+4) * (3/2) < 7/2 := by
  refine ⟨(driftPhase noise rng st.intensity (st.time + dt) M st.targets
    st.k st.S).k, ?_, ?_, ?_, ?_, ?_, ?_, ?_, ?_, ?_, ?_, ?_⟩
  · unfold mutationStep
    dsimp only
    rw [if_pos ⟨hen, hint⟩, if_pos ht]
  · exact mul_nonneg (hr _).1 (le_of_lt hW)
  · calc rng _ * W < 1 * W := mul_lt_mul_of_pos_right (hr _).2 hW
      _ = W := one_mul W
  · exact mul_nonneg (hr _).1 (le_of_lt hH)
  · calc rng _ * H < 1 * H := mul_lt_mul_of_pos_right (hr _).2 hH
      _ = H := one_mul H
  · nlinarith [(hr ((driftPhase noise rng st.intensity (st.time + dt) M
      st.targets st.k st.S).k + 2)).1]
  · nlinarith [(hr ((driftPhase noise rng st.intensity (st.time + dt) M
      st.targets st.k st.S).k + 2)).2]
  · nlinarith [(hr ((driftPhase noise rng st.intensity (st.time + dt) M
      st.targets st.k st.S).k + 3)).1]
  · nlinarith [(hr ((driftPhase noise rng st.intensity (st.time + dt) M
      st.targets st.k st.S).k + 3)).2]
  · nlinarith [(hr ((driftPhase noise rng st.intensity (st.time + dt) M
      st.targets st.k st.S).k + 4)).1]
  · nlinarith [(hr ((driftPhase noise rng st.intensity (st.time + dt) M
      st.targets st.k st.S).k + 4)).2]

/-- C4 witness: a fresh 5-species engine stepped with dt = 6 s crosses the
5 s threshold and spawns, with all the stated bounds, in a 100×100 world. -/
theorem c4_spawn_witness :
    ∃ k,
      (mutationStep noiseZ rngHalf MZ 6 100 100
        (createMutation 5 rngHalf)).2.anomalies =
        (((createMutation 5 rngHalf).anomalies ++
          [(⟨rngHalf k * 100, rngHalf (k+1) * 100,
            (rngHalf (k+2) - 1/2) * 2 * (createMutation 5 rngHalf).intensity,
            2 + rngHalf (k+3) * (3/2), 2 + rngHalf (k+4) * (3/2)⟩ : Anomaly)]).map
          (fun a => { a with life := a.life - 6 })).filter
          (fun a => 0 < a.life) ∧
      0 ≤ rngHalf k * 100 ∧ rngHalf k * 100 < 100 ∧
      0 ≤ rngHalf (k+1) * 100 ∧ rngHalf (k+1) * 100 < 100 ∧
      -(createMutation 5 rngHalf).intensity ≤
        (rngHalf (k+2) - 1/2) * 2 * (createMutation 5 rngHalf).intensity ∧
      (rngHalf (k+2) - 1/2) * 2 * (createMutation 5 rngHalf).intensity ≤
        (createMutation 5 rngHalf).intensity ∧
      2 ≤ 2 + rngHalf (k+3) * (3/2) ∧ 2 + rngHalf (k+3) * (3/2) < 7/2 ∧
      2 ≤ 2 + rngHalf (k+4) * (3/2) ∧ 2 + rngHalf (k+4) * (3/2) < 7/2 :=
  c4_spawn_characterization noiseZ rngHalf MZ 6 100 100
    (createMutation 5 rngHalf) rfl (by norm_num [createMutation])
    (by norm_num [createMutation]) (by norm_num) (by norm_num)
    (fun n => ⟨by norm_num [rngHalf], by norm_num [rngHalf]⟩)

end ClaimTheorems4

section ClaimTheorems5

set_option maxRecDepth 8000

attribute [local semireducible] Rat.add Rat.mul Rat.inv Rat.sub

/-- A stroke point is inside the force band of the query point: squared
distance strictly between 0.01 and 160². -/
def strokeInBand (sp : StrokePoint) (px py : ℚ) : Prop :=
  (sp.x - px) * (sp.x - px) + (sp.y - py) * (sp.y - py) < 160 * 160 ∧
  (sp.x - px) * (sp.x - px) + (sp.y - py) * (sp.y - py) > 1/100

/-- The best-candidate triple an in-band stroke point installs:
`(sf, sdx/sd, sdy/sd)`. -/
def strokeCand (sq : ℚ → ℚ) (sp : StrokePoint) (px py : ℚ) : ℚ × ℚ × ℚ :=
  (strokeSf sq sp px py,
   (sp.x - px) / sq ((sp.x - px) * (sp.x - px) + (sp.y - py) * (sp.y - py)),
   (sp.y - py) / sq ((sp.x - px) * (sp.x - px) + (sp.y - py) * (sp.y - py)))

lemma strokeSf_inBand (sq : ℚ → ℚ) (sp : StrokePoint) (px py : ℚ)
    (h : strokeInBand sp px py) :
    strokeSf sq sp px py =
      (1 - sq ((sp.x - px) * (sp.x - px) + (sp.y - py) * (sp.y - py)) / 160) *
      (1 - sq ((sp.x - px) * (sp.x - px) + (sp.y - py) * (sp.y - py)) / 160) *
      sp.alpha * 96 := by
  unfold strokeSf
  dsimp only
  rw [if_pos (show _ ∧ _ from h)]

lemma strokeSf_outBand (sq : ℚ → ℚ) (sp : StrokePoint) (px py : ℚ)
    (h : ¬ strokeInBand sp px py) :
    strokeSf sq sp px py = 0 := by
  unfold strokeSf
  dsimp only
  rw [if_neg (show ¬(_ ∧ _) from h)]

lemma strokeBest_cases (sq : ℚ → ℚ) (px py : ℚ) (b : ℚ × ℚ × ℚ)
    (sp : StrokePoint) :
    strokeBest sq px py b sp = b ∨
    (strokeInBand sp px py ∧
      strokeBest sq px py b sp = strokeCand sq sp px py ∧
      b.1 < (strokeCand sq sp px py).1) := by
  unfold strokeBest
  dsimp only
  by_cases hband : strokeInBand sp px py
  · rw [if_pos (show _ ∧ _ from hband)]
    by_cases hgt : (1 - sq ((sp.x - px) * (sp.x - px) + (sp.y - py) * (sp.y - py)) / 160) *
        (1 - sq ((sp.x - px) * (sp.x - px) + (sp.y - py) * (sp.y - py)) / 160) *
        sp.alpha * 96 > b.1
    · rw [if_pos hgt]
      refine Or.inr ⟨hband, ?_, ?_⟩
      · unfold strokeCand
        rw [strokeSf_inBand sq sp px py hband]
      · rw [show (strokeCand sq sp px py).1 = strokeSf sq sp px py from rfl,
          strokeSf_inBand sq sp px py hband]
        exact hgt
    · rw [if_neg hgt]
      exact Or.inl rfl
  · rw [if_neg (show ¬(_ ∧ _) from hband)]
    exact Or.inl rfl

lemma strokeSf_le_best (sq : ℚ → ℚ) (px py : ℚ) (b : ℚ × ℚ × ℚ)
    (sp : StrokePoint) (hb : 0 ≤ b.1) :
    strokeSf sq sp px py ≤ (strokeBest sq px py b sp).1 := by
  unfold strokeBest
  dsimp only
  by_cases hband : strokeInBand sp px py
  · rw [if_pos (show _ ∧ _ from hband), strokeSf_inBand sq sp px py hband]
    by_cases hgt : (1 - sq ((sp.x - px) * (sp.x - px) + (sp.y - py) * (sp.y - py)) / 160) *
        (1 - sq ((sp.x - px) * (sp.x - px) + (sp.y - py) * (sp.y - py)) / 160) *
        sp.alpha * 96 > b.1
    · rw [if_pos hgt]
    · rw [if_neg hgt]
      exact le_of_not_lt hgt
  · rw [if_neg (show ¬(_ ∧ _) from hband), strokeSf_outBand sq sp px py hband]
    exact hb

lemma strokeBest_fst_mono (sq : ℚ → ℚ) (px py : ℚ) (b : ℚ × ℚ × ℚ)
    (sp : StrokePoint) : b.1 ≤ (strokeBest sq px py b sp).1 := by
  rcases strokeBest_cases sq px py b sp with h | ⟨_, h, hlt⟩
  · rw [h]
  · rw [h]
    exact le_of_lt hlt

lemma strokeFold_inv (sq : ℚ → ℚ) (px py : ℚ) :
    ∀ (l : List StrokePoint) (b : ℚ × ℚ × ℚ), 0 ≤ b.1 →
      (b.1 ≤ (l.foldl (strokeBest sq px py) b).1) ∧
      (∀ q ∈ l, strokeSf sq q px py ≤ (l.foldl (strokeBest sq px py) b).1) ∧
      ((l.foldl (strokeBest sq px py) b) = b ∨
        ∃ sp ∈ l, strokeInBand sp px py ∧
          (l.foldl (strokeBest sq px py) b) = strokeCand sq sp px py ∧
          0 < (l.foldl (strokeBest sq px py) b).1) := by
  intro l
  induction l with
  | nil =>
    intro b hb
    exact ⟨le_refl _, fun q hq => absurd hq (List.not_mem_nil q), Or.inl rfl⟩
  | cons sp t ih =>
    intro b hb
    rw [List.foldl_cons]
    have hb2 : 0 ≤ (strokeBest sq px py b sp).1 :=
      le_trans hb (strokeBest_fst_mono sq px py b sp)
    obtain ⟨h1, h2, h3⟩ := ih (strokeBest sq px py b sp) hb2
    refine ⟨le_trans (strokeBest_fst_mono sq px py b sp) h1, ?_, ?_⟩
    · intro q hq
      rcases List.mem_cons.mp hq with rfl | hqt
      · exact le_trans (strokeSf_le_best sq px py b q hb) h1
      · exact h2 q hqt
    · rcases h3 with heq | ⟨sp2, hmem2, hband2, heq2, hpos2⟩
      · rw [heq]
        rcases strokeBest_cases sq px py b sp with hcase | ⟨hband, hcase, hlt⟩
        · exact Or.inl hcase
        · refine Or.inr ⟨sp, List.mem_cons_self sp t, hband, hcase, ?_⟩
          rw [hcase]
          exact lt_of_le_of_lt hb hlt
      · exact Or.inr ⟨sp2, List.mem_cons_of_mem sp hmem2, hband2, heq2, hpos2⟩

/-- C3 counterexample: the particle at the origin sees two stroke points —
`ptA = (80, 0)` from a nearly decayed stroke (alpha 0.01) and
`ptB = (-120, 0)` from a fresh stroke (alpha 1).  `ptA` is strictly nearer
(6400 < 14400), yet the code applies force (-6, 0), pulling toward the
farther point `ptB`, while the spec's nearest-point rule would give
(6/25, 0) toward `ptA`: selection is by largest force value, not by
distance.  (The last two conjuncts certify the oracle is the exact square
root at both queried radicands.) -/
theorem c3_nearest_counterexample :
    strokeForce sqStroke [ptA, ptB] 0 0 = (-6, 0) ∧
    nearestStrokeForceSpec sqStroke [ptA, ptB] 0 0 = (6/25, 0) ∧
    (ptA.x - 0) * (ptA.x - 0) + (ptA.y - 0) * (ptA.y - 0) <
      (ptB.x - 0) * (ptB.x - 0) + (ptB.y - 0) * (ptB.y - 0) ∧
    strokeForce sqStroke [ptA, ptB] 0 0 ≠
      nearestStrokeForceSpec sqStroke [ptA, ptB] 0 0 ∧
    sqStroke 6400 * sqStroke 6400 = 6400 ∧
    sqStroke 14400 * sqStroke 14400 = 14400 := by
  refine ⟨?_, ?_, ?_, ?_, ?_, ?_⟩ <;> decide

/-- C3 (amended): per step each particle receives stroke force from at most
ONE stroke point — one whose force value `sf = (1 - d/160)²·alpha·96` is
maximal over all stroke points (which is the nearest point only when the
alphas are equal, not in general) — and out-of-band points are excluded;
either no force is applied, or the applied force equals what that single
point alone would produce. -/
theorem c3_single_strongest_point (sq : ℚ → ℚ) (pts : List StrokePoint)
    (px py : ℚ) :
    strokeForce sq pts px py = (0, 0) ∨
    ∃ sp ∈ pts, strokeForce sq pts px py = strokeForce sq [sp] px py ∧
      ∀ q ∈ pts, strokeSf sq q px py ≤ strokeSf sq sp px py := by
  obtain ⟨h1, h2, h3⟩ := strokeFold_inv sq px py pts (0, 0, 0) (le_refl 0)
  rcases h3 with heq | ⟨sp, hmem, hband, heq, hpos⟩
  · left
    unfold strokeForce
    dsimp only
    rw [heq]
    rw [if_neg (lt_irrefl 0)]
  · right
    have hcand1 : (strokeCand sq sp px py).1 = strokeSf sq sp px py := rfl
    have hsingle : [sp].foldl (strokeBest sq px py) (0, 0, 0) =
        strokeCand sq sp px py := by
      rw [List.foldl_cons, List.foldl_nil]
      unfold strokeBest
      dsimp only
      rw [if_pos (show _ ∧ _ from hband),
        if_pos (show _ > (0:ℚ) by
          rw [← strokeSf_inBand sq sp px py hband, ← hcand1]
          rw [heq] at hpos
          exact hpos)]
      unfold strokeCand
      rw [strokeSf_inBand sq sp px py hband]
    refine ⟨sp, hmem, ?_, ?_⟩
    · unfold strokeForce
      dsimp only
      rw [heq, hsingle]
    · intro q hq
      have := h2 q hq
      rw [heq, hcand1] at this
      exact this

end ClaimTheorems5
